import Mathlib

/-!
Shallow embedding of the retrieval-augmented RFP analysis core:
the document chunker and text cleaner (`DocumentProcessor`), the
vector-store wrapper (`VectorStore`), and the rule-based analyzer
(`RfpAnalyzer`).  JS strings are modelled as `List Char` (the inputs
exercised here are ASCII, so UTF-16 index arithmetic and `List Char`
indexing agree); JS numbers used as distances are modelled as `ℚ`.
-/

/-- Whitespace class modelling the characters the JS regexes `\s`, the
string method `trim`, and the split patterns treat as whitespace
(ASCII subset, which covers all inputs considered here). -/
def isWS (c : Char) : Bool :=
  c = ' ' || c = '\t' || c = '\n' || c = '\r' || c = '\x0b' || c = '\x0c'

/-- Lowercasing of a JS string (`String.prototype.toLowerCase`),
ASCII subset. -/
def toLowerL (l : List Char) : List Char :=
  l.map Char.toLower

/-- Does `pat` occur at the very start of `l`?  (Helper for substring
search.) -/
def isPrefixB : List Char → List Char → Bool
  | [], _ => true
  | _ :: _, [] => false
  | a :: as, b :: bs => a = b && isPrefixB as bs

/-- Does `needle` occur anywhere inside `haystack`?  Models
`String.prototype.includes`. -/
def isInfixB (needle : List Char) : List Char → Bool
  | [] => needle.isEmpty
  | c :: rest => isPrefixB needle (c :: rest) || isInfixB needle rest

/-- JS `haystack.includes(needle)` on strings. -/
def jsIncludes (haystack needle : String) : Bool :=
  isInfixB needle.data haystack.data

/-- JS `String.prototype.trim` (ASCII whitespace subset). -/
def jsTrimL (l : List Char) : List Char :=
  ((l.dropWhile isWS).reverse.dropWhile isWS).reverse

/-- JS `String.prototype.trim` on `String`. -/
def jsTrim (s : String) : String :=
  ⟨jsTrimL s.data⟩

/-- JS `text.split(sep)` for a single-character separator. -/
def splitOnChar (sep : Char) : List Char → List (List Char)
  | [] => [[]]
  | a :: rest =>
    match splitOnChar sep rest with
    | [] => [[]]
    | h :: t => if a = sep then [] :: h :: t else (a :: h) :: t

/-- Lines of a JS string, as in `text.split('\n')`, kept as strings. -/
def splitLines (text : String) : List String :=
  (splitOnChar '\n' text.data).map (fun l => (⟨l⟩ : String))

/-- Case-insensitive test that `haystack` contains one of the literal
alternatives, modelling a JS regex of the form `/lit1|lit2|…/i`. -/
def containsAnyCI (haystack : String) (terms : List String) : Bool :=
  terms.any (fun t => isInfixB (toLowerL t.data) (toLowerL haystack.data))

/- ## RfpAnalyzer: contract-risk heuristics (`assessRiskLevel`,
`extractRiskyClauses`) -/

/-- The fixed `highRiskTerms` list of `assessRiskLevel`
(src/lib/rfpAnalyzer.ts). -/
def highRiskTerms : List String :=
  ["unlimited liability", "indemnification", "without cause", "sole discretion"]

/-- The fixed `mediumRiskTerms` list of `assessRiskLevel`. -/
def mediumRiskTerms : List String :=
  ["termination", "warranty", "liquidated damages", "penalties"]

/-- `assessRiskLevel(clause)`: returns "High" if the lowercased clause
contains a high-risk term, else "Medium" on a medium-risk term, else
"Low".  The source's early-return for-loops are an `any` over each
fixed list. -/
def assessRiskLevel (clause : String) : String :=
  if highRiskTerms.any (fun t => jsIncludes (⟨toLowerL clause.data⟩ : String) t) then
    "High"
  else if mediumRiskTerms.any (fun t => jsIncludes (⟨toLowerL clause.data⟩ : String) t) then
    "Medium"
  else
    "Low"

/-- The fixed `riskTerms` list of `extractRiskyClauses`. -/
def riskTerms : List String :=
  ["termination", "unilateral", "waive", "without cause", "sole discretion",
   "unlimited liability", "indemnification", "warranty", "liquidated damages",
   "penalties", "remedy", "exclusive", "limitation of liability"]

/-- One-pass scanner behind the split on the JS regex `[.;]\s+`: a `.`
or `;` immediately followed by at least one whitespace character
separates sections, and the greedy `\s+` consumes the whole whitespace
run.  The Boolean flag records that we are still inside a separator's
whitespace run (so further whitespace is consumed, matching the greedy
quantifier).  The separator characters belong to no section. -/
def splitSectionsGo : Bool → List Char → List (List Char)
  | _, [] => [[]]
  | skipping, c :: rest =>
    if skipping && isWS c then splitSectionsGo true rest
    else if (c = '.' || c = ';') && (match rest with
        | r :: _ => isWS r
        | [] => false) then
      [] :: splitSectionsGo true rest
    else
      match splitSectionsGo false rest with
      | [] => [[]]
      | h :: t => (c :: h) :: t

/-- `text.split(/[.;]\s+/)` on `String`. -/
def splitSections (text : String) : List String :=
  (splitSectionsGo false text.data).map (fun l => (⟨l⟩ : String))

/-- One step of the `extractRiskyClauses` loop body: if the section
contains some risk term (the source breaks after the first matching
term, so only existence matters), append `section.trim() + '.'` when it
is longer than 20 characters and not already collected. -/
def riskyClauseStep (acc : List String) (section' : String) : List String :=
  if riskTerms.any (fun t => jsIncludes (⟨toLowerL section'.data⟩ : String) t) then
    let c := jsTrim section' ++ "."
    if decide (20 < c.data.length) && !(acc.contains c) then acc ++ [c] else acc
  else acc

/-- `extractRiskyClauses(text)` from src/lib/rfpAnalyzer.ts. -/
def extractRiskyClauses (text : String) : List String :=
  (splitSections text).foldl riskyClauseStep []

/-- C1: the first fixed sentence from the spec's risk-flag property. -/
def riskSentenceHigh : String :=
  "Vendor agrees to unlimited liability for all damages."

/-- C1: the second fixed sentence from the spec's risk-flag property. -/
def riskSentenceTerminated : String :=
  "This agreement may be terminated by either party."

/-- C1 counterexample: the sentence "This agreement may be terminated
by either party." is NOT classified `Medium` by `assessRiskLevel` (the
word "terminated" does not contain the keyword "termination"), and it
is not flagged by `extractRiskyClauses` either. -/
theorem assessRiskLevel_terminated_not_medium :
    assessRiskLevel riskSentenceTerminated ≠ "Medium" ∧
    extractRiskyClauses riskSentenceTerminated = [] := by
  constructor
  · decide
  · decide

/-- C1 (amended): "Vendor agrees to unlimited liability for all
damages." is classified `High` by `assessRiskLevel`; "This agreement
may be terminated by either party." is classified `Low` (none of the
risk keywords — in particular not "termination" — occurs in it) and is
not flagged by `extractRiskyClauses`. -/
theorem assessRiskLevel_fixed_sentences :
    assessRiskLevel riskSentenceHigh = "High" ∧
    assessRiskLevel riskSentenceTerminated = "Low" ∧
    extractRiskyClauses riskSentenceTerminated = [] := by
  refine ⟨by decide, by decide, by decide⟩

/- ## RfpAnalyzer: eligibility (`checkRequirementMet`,
`extractRequirements`, `analyzeEligibility`) -/

/-- The company profile (`CompanyDetails` in src/lib/rfpAnalyzer.ts).
An experience entry `(area, some y)` models `{years: y}`; `none`
models a falsy entry or one without a numeric `years` field. -/
structure CompanyDetails where
  companyName : String
  certifications : List String
  experience : List (String × Option Nat)
  capabilities : List String
  registrations : List String

/-- Case-insensitive prefix match: does the lowercase pattern `pat`
start the string `l` once `l` is lowercased?  Returns the remainder on
success.  (Helper for the `/(\d+)\s+years?\s+experience/i` regex.) -/
def stripCI : List Char → List Char → Option (List Char)
  | [], rest => some rest
  | _ :: _, [] => none
  | p :: ps, c :: cs => if c.toLower = p then stripCI ps cs else none

/-- Digit run parsed as a number, modelling `parseInt` on the capture
group of `/(\d+)…/` (the capture is a nonempty digit string). -/
def parseDigits (ds : List Char) : Nat :=
  ds.foldl (fun acc c => acc * 10 + (c.toNat - 48)) 0

/-- Attempted match of the regex `(\d+)\s+years?\s+experience` (with
the `i` flag) anchored at the head of `l`; yields the parsed capture
group.  Backtracking cannot help this pattern (digits are not
whitespace and `s`/`e` are not whitespace), so the greedy parse is
exact. -/
def yearsExpAt (l : List Char) : Option Nat :=
  let ds := l.takeWhile Char.isDigit
  if ds.isEmpty then none
  else
    let r1 := l.drop ds.length
    let ws1 := r1.takeWhile isWS
    if ws1.isEmpty then none
    else
      match stripCI ("year").data (r1.drop ws1.length) with
      | none => none
      | some r2 =>
        let r3 := match r2 with
          | 's' :: t => t
          | 'S' :: t => t
          | _ => r2
        let ws2 := r3.takeWhile isWS
        if ws2.isEmpty then none
        else
          match stripCI ("experience").data (r3.drop ws2.length) with
          | none => none
          | some _ => some (parseDigits ds)

/-- First match of `/(\d+)\s+years?\s+experience/i` anywhere in the
string, as in `requirement.match(...)`. -/
def findYearsExp : List Char → Option Nat
  | [] => none
  | c :: rest =>
    match yearsExpAt (c :: rest) with
    | some n => some n
    | none => findYearsExp rest

/-- `checkRequirementMet(requirement)` from src/lib/rfpAnalyzer.ts:
certification requirements are matched against the certification list,
`"<N> years experience"` requirements against the recorded experience
years, and anything else against the capability list. -/
def checkRequirementMet (cd : CompanyDetails) (requirement : String) : Bool :=
  let rl : String := ⟨toLowerL requirement.data⟩
  if jsIncludes rl ("certification") || jsIncludes rl ("certified") then
    cd.certifications.any (fun cert => jsIncludes rl (⟨toLowerL cert.data⟩ : String))
  else
    match findYearsExp requirement.data with
    | some yearsRequired =>
      cd.experience.any (fun e =>
        match e.2 with
        | some y => decide (yearsRequired ≤ y)
        | none => false)
    | none =>
      cd.capabilities.any (fun cap => jsIncludes rl (⟨toLowerL cap.data⟩ : String))

/-- The requirement-signal keywords of `extractRequirements`
(`/must have|required|shall have|minimum|at least/i`). -/
def reqKeywords : List String :=
  ["must have", "required", "shall have", "minimum", "at least"]

/-- Bullet test `/^[\â€¢\-\*]/` of `extractRequirements`: the leading
character is in the literal character class of the source (which spells
a mojibake bullet `â€¢` plus `-` and `*`). -/
def isBulletLine (l : List Char) : Bool :=
  match l with
  | [] => false
  | c :: _ => c = 'â' || c = '€' || c = '¢' || c = '-' || c = '*'

/-- Numbered-list test `/^\d+[\.\)]/`: one or more leading digits
followed by `.` or `)` (greedy digit run; backtracking cannot succeed
otherwise since `.`/`)` are not digits). -/
def isNumberedLine (l : List Char) : Bool :=
  let ds := l.takeWhile Char.isDigit
  !ds.isEmpty &&
    (match l.drop ds.length with
     | c :: _ => c = '.' || c = ')'
     | [] => false)

/-- `extractRequirements(text)`: trimmed lines that look like bullet
points, numbered items, or contain requirement language, and are
longer than 10 characters. -/
def extractRequirements (text : String) : List String :=
  (splitLines text).filterMap (fun line =>
    let t := jsTrim line
    if (isBulletLine t.data || isNumberedLine t.data || containsAnyCI t reqKeywords)
        && decide (10 < t.data.length) then
      some t
    else none)

/-- The requirement-analysis core of `analyzeEligibility(rfpId)`: the
retrieval results (chunk contents) are supplied as input, every
extracted requirement is checked against the company profile, failing
ones are collected in order, and `eligible` is set exactly when none
failed.  The generated markdown report is not modelled. -/
def analyzeEligibility (cd : CompanyDetails) (contents : List String) :
    Bool × List String :=
  let missing :=
    (contents.flatMap extractRequirements).filter
      (fun req => !(checkRequirementMet cd req))
  (missing.isEmpty, missing)

/-- C8: the fixed company profile of the spec's eligibility-determinism
property. -/
def profileC8 : CompanyDetails :=
  { companyName := "Test"
    certifications := ["ISO 9001"]
    experience := [("IT", some 5)]
    capabilities := ["Cloud"]
    registrations := [] }

/-- C8: with profile {certifications: ["ISO 9001"], experience:
{IT: {years: 5}}, capabilities: ["Cloud"]}, the requirement "Must have
ISO 9001 certification" is met and "Must have 10 years experience" is
not (only 5 years are recorded). -/
theorem checkRequirementMet_fixed_profile :
    checkRequirementMet profileC8 ("Must have ISO 9001 certification") = true ∧
    checkRequirementMet profileC8 ("Must have 10 years experience") = false := by
  refine ⟨by decide, by decide⟩

/-- C10: `registrations` never influences the eligibility analysis:
replacing the registrations of any profile leaves every
`checkRequirementMet` verdict and the whole `analyzeEligibility`
result (eligible flag and missing-requirements list) unchanged. -/
theorem registrations_do_not_influence_eligibility
    (cd : CompanyDetails) (regs : List String) :
    (∀ requirement : String,
      checkRequirementMet { cd with registrations := regs } requirement =
        checkRequirementMet cd requirement) ∧
    (∀ contents : List String,
      analyzeEligibility { cd with registrations := regs } contents =
        analyzeEligibility cd contents) := by
  refine ⟨fun requirement => rfl, fun contents => rfl⟩

/- ## DocumentProcessor.cleanText and its idempotence -/

/-- Newline class of the JS regex `/\n+/g`. -/
def isNLc (c : Char) : Bool := c = '\n'

/-- Tab class of the JS regex `/\t+/g`. -/
def isTabc (c : Char) : Bool := c = '\t'

/-- Scanner behind `text.replace(/X+/g, ' ')`: every maximal run of
characters satisfying `p` becomes a single space.  The flag records
that we are inside a run whose replacement space was already
emitted. -/
def collapseGo (p : Char → Bool) : Bool → List Char → List Char
  | _, [] => []
  | inRun, c :: rest =>
    if p c then
      if inRun then collapseGo p true rest
      else ' ' :: collapseGo p true rest
    else c :: collapseGo p false rest

/-- `text.replace(/X+/g, ' ')` for the character class `p`. -/
def replaceRuns (p : Char → Bool) (l : List Char) : List Char :=
  collapseGo p false l

/-- `cleanText(text)` from src/lib/documentProcessor.ts: collapse
whitespace runs, then newline runs, then tab runs, each to a single
space, and trim both ends. -/
def cleanText (s : String) : String :=
  ⟨jsTrimL (replaceRuns isTabc (replaceRuns isNLc (replaceRuns isWS s.data)))⟩

theorem collapseGo_of_all_not {p : Char → Bool} :
    ∀ (b : Bool) (l : List Char), (∀ c ∈ l, p c = false) → collapseGo p b l = l := by
  intro b l
  induction l generalizing b with
  | nil => intro _; rfl
  | cons c rest ih =>
    intro h
    have hc : p c = false := h c (List.mem_cons_self _ _)
    simp only [collapseGo, hc, Bool.false_eq_true, if_false]
    exact congrArg (c :: ·) (ih false (fun d hd => h d (List.mem_cons_of_mem _ hd)))

theorem mem_collapseGo {p : Char → Bool} :
    ∀ (b : Bool) (l : List Char) (c : Char),
      c ∈ collapseGo p b l → c = ' ' ∨ p c = false := by
  intro b l
  induction l generalizing b with
  | nil => intro c h; simp [collapseGo] at h
  | cons a rest ih =>
    intro c h
    by_cases ha : p a = true
    · cases b with
      | true =>
        simp only [collapseGo, ha, if_true] at h
        exact ih true c h
      | false =>
        simp only [collapseGo, ha, if_true] at h
        rcases List.mem_cons.mp h with h' | h'
        · exact Or.inl h'
        · exact ih true c h'
    · have ha' : p a = false := by simpa using ha
      simp only [collapseGo, ha', Bool.false_eq_true, if_false] at h
      rcases List.mem_cons.mp h with h' | h'
      · subst h'; exact Or.inr ha'
      · exact ih false c h'

theorem head?_collapseGo_true {p : Char → Bool} :
    ∀ (l : List Char) (c : Char),
      (collapseGo p true l).head? = some c → p c = false := by
  intro l
  induction l with
  | nil => intro c h; simp [collapseGo] at h
  | cons a rest ih =>
    intro c h
    by_cases ha : p a = true
    · simp only [collapseGo, ha, if_true] at h
      exact ih c h
    · have ha' : p a = false := by simpa using ha
      simp only [collapseGo, ha', Bool.false_eq_true, if_false, List.head?_cons,
        Option.some.injEq] at h
      subst h; exact ha'

theorem chain'_collapseGo {p : Char → Bool} :
    ∀ (b : Bool) (l : List Char),
      (collapseGo p b l).Chain' (fun a b => ¬(p a = true ∧ p b = true)) := by
  intro b l
  induction l generalizing b with
  | nil => simp [collapseGo]
  | cons a rest ih =>
    by_cases ha : p a = true
    · cases b with
      | true => simpa only [collapseGo, ha, if_true] using ih true
      | false =>
        simp only [collapseGo, ha, if_true]
        refine List.chain'_cons'.mpr ⟨?_, ih true⟩
        intro y hy hcontra
        have := head?_collapseGo_true rest y hy
        rw [this] at hcontra
        exact absurd hcontra.2 (by simp)
    · have ha' : p a = false := by simpa using ha
      simp only [collapseGo, ha', Bool.false_eq_true, if_false]
      refine List.chain'_cons'.mpr ⟨?_, ih false⟩
      intro y _ hcontra
      rw [ha'] at hcontra
      exact absurd hcontra.1 (by simp)

/-- Invariant of `replaceRuns isWS`: all whitespace characters are
plain spaces, and no two adjacent characters are both whitespace. -/
def CollapsedW (l : List Char) : Prop :=
  (∀ c ∈ l, isWS c = true → c = ' ') ∧
    l.Chain' (fun a b => ¬(isWS a = true ∧ isWS b = true))

theorem collapsedW_replaceRuns (l : List Char) : CollapsedW (replaceRuns isWS l) := by
  refine ⟨?_, chain'_collapseGo false l⟩
  intro c hc hws
  rcases mem_collapseGo false l c hc with h | h
  · exact h
  · rw [h] at hws; exact absurd hws (by simp)

theorem collapseGo_false_fix : ∀ (l : List Char), CollapsedW l → collapseGo isWS false l = l := by
  intro l
  induction l with
  | nil => intro _; rfl
  | cons a rest ih =>
    intro ⟨hmem, hchain⟩
    have hrest : CollapsedW rest :=
      ⟨fun c hc => hmem c (List.mem_cons_of_mem _ hc), (List.chain'_cons'.mp hchain).2⟩
    by_cases ha : isWS a = true
    · have haSp : a = ' ' := hmem a (List.mem_cons_self _ _) ha
      have hgo : collapseGo isWS true rest = collapseGo isWS false rest := by
        cases rest with
        | nil => rfl
        | cons b rest' =>
          have hb : isWS b = false := by
            have := (List.chain'_cons'.mp hchain).1 b (by simp)
            by_contra hb'
            exact this ⟨ha, by simpa using hb'⟩
          simp only [collapseGo, hb, Bool.false_eq_true, if_false]
      subst haSp
      have hstep : collapseGo isWS false (' ' :: rest) = ' ' :: collapseGo isWS true rest := by
        have hsp : isWS ' ' = true := by decide
        simp [collapseGo, hsp]
      rw [hstep, hgo, ih hrest]
    · have ha' : isWS a = false := by simpa using ha
      simp only [collapseGo, ha', Bool.false_eq_true, if_false, ih hrest]

theorem dropWhile_head?_not (p : Char → Bool) :
    ∀ (l : List Char) (c : Char), (l.dropWhile p).head? = some c → p c = false := by
  intro l
  induction l with
  | nil => intro c h; simp [List.dropWhile] at h
  | cons a rest ih =>
    intro c h
    by_cases ha : p a = true
    · rw [List.dropWhile_cons_of_pos ha] at h
      exact ih c h
    · have ha' : p a = false := by simpa using ha
      rw [List.dropWhile_cons_of_neg (by simp [ha'])] at h
      simp only [List.head?_cons, Option.some.injEq] at h
      subst h; exact ha'

theorem dropWhile_eq_self_of_head (p : Char → Bool) (l : List Char)
    (h : ∀ c, l.head? = some c → p c = false) : l.dropWhile p = l := by
  cases l with
  | nil => rfl
  | cons a rest =>
    exact List.dropWhile_cons_of_neg (by simp [h a rfl])

theorem mem_jsTrimL {c : Char} {l : List Char} (h : c ∈ jsTrimL l) : c ∈ l := by
  unfold jsTrimL at h
  rw [List.mem_reverse] at h
  have h2 := (List.dropWhile_suffix isWS).sublist.subset h
  rw [List.mem_reverse] at h2
  exact (List.dropWhile_suffix isWS).sublist.subset h2

theorem collapsedW_dropWhile {l : List Char} (h : CollapsedW l) :
    CollapsedW (l.dropWhile isWS) := by
  obtain ⟨t, ht⟩ := (List.dropWhile_suffix isWS : l.dropWhile isWS <:+ l)
  refine ⟨fun c hc => h.1 c ((List.dropWhile_suffix isWS).sublist.subset hc), ?_⟩
  have := h.2
  rw [← ht] at this
  exact (List.chain'_append.mp this).2.1

theorem collapsedW_reverse {l : List Char} (h : CollapsedW l) : CollapsedW l.reverse := by
  refine ⟨fun c hc => h.1 c (List.mem_reverse.mp hc), ?_⟩
  rw [List.chain'_reverse]
  exact h.2.imp (fun {a b} hab hc => hab ⟨hc.2, hc.1⟩)

theorem collapsedW_jsTrimL {l : List Char} (h : CollapsedW l) : CollapsedW (jsTrimL l) := by
  unfold jsTrimL
  exact collapsedW_reverse (collapsedW_dropWhile (collapsedW_reverse (collapsedW_dropWhile h)))

theorem jsTrimL_head? (l : List Char) (c : Char)
    (h : (jsTrimL l).head? = some c) : isWS c = false := by
  unfold jsTrimL at h
  rw [List.head?_reverse] at h
  set u := ((l.dropWhile isWS).reverse.dropWhile isWS) with hu
  obtain ⟨t, ht⟩ := (List.dropWhile_suffix isWS :
    ((l.dropWhile isWS).reverse.dropWhile isWS) <:+ (l.dropWhile isWS).reverse)
  by_cases hne : u = []
  · rw [hne] at h; simp at h
  · rw [← hu] at ht
    have : ((l.dropWhile isWS).reverse).getLast? = some c := by
      rw [← ht, List.getLast?_append_of_ne_nil _ hne]
      exact h
    rw [List.getLast?_reverse] at this
    exact dropWhile_head?_not isWS _ _ this

theorem jsTrimL_idem (l : List Char) : jsTrimL (jsTrimL l) = jsTrimL l := by
  conv_lhs => rw [jsTrimL]
  rw [dropWhile_eq_self_of_head isWS (jsTrimL l) (jsTrimL_head? l)]
  rw [jsTrimL, List.reverse_reverse]
  rw [dropWhile_eq_self_of_head isWS _ (fun c hc => dropWhile_head?_not isWS _ c hc)]

theorem cleanText_data (s : String) :
    (cleanText s).data = jsTrimL (replaceRuns isWS s.data) := by
  have hnl : replaceRuns isNLc (replaceRuns isWS s.data) = replaceRuns isWS s.data := by
    apply collapseGo_of_all_not
    intro c hc
    rcases mem_collapseGo false s.data c hc with h | h
    · subst h; decide
    · rcases Bool.eq_false_iff.mp h with _
      by_contra hnl'
      have : c = '\n' := by simpa [isNLc] using hnl'
      subst this; exact absurd h (by decide)
  have htab : replaceRuns isTabc (replaceRuns isWS s.data) = replaceRuns isWS s.data := by
    apply collapseGo_of_all_not
    intro c hc
    rcases mem_collapseGo false s.data c hc with h | h
    · subst h; decide
    · by_contra htab'
      have : c = '\t' := by simpa [isTabc] using htab'
      subst this; exact absurd h (by decide)
  show jsTrimL (replaceRuns isTabc (replaceRuns isNLc (replaceRuns isWS s.data))) = _
  rw [hnl, htab]

/-- C9: `cleanText` is idempotent: cleaning an already-cleaned string
changes nothing, for every input string. -/
theorem cleanText_idempotent (s : String) :
    cleanText (cleanText s) = cleanText s := by
  have hcoll : CollapsedW (jsTrimL (replaceRuns isWS s.data)) :=
    collapsedW_jsTrimL (collapsedW_replaceRuns s.data)
  have hfix : replaceRuns isWS (jsTrimL (replaceRuns isWS s.data)) =
      jsTrimL (replaceRuns isWS s.data) :=
    collapseGo_false_fix _ hcoll
  apply String.ext
  rw [cleanText_data (cleanText s), cleanText_data s, hfix, jsTrimL_idem]

/- ## VectorStore: initialization guard (`initialize`, `addDocuments`,
`getCollectionCount`) -/

/-- A document record handed to `VectorStore.addDocuments`
(src/lib/vectorStore.ts); metadata is an association list. -/
structure ChromaDoc where
  id : String
  content : String
  metadata : List (String × String)
deriving DecidableEq

/-- Error outcomes of the vector-store wrapper: `NotInitialized`
models `throw new Error("Collection not initialized")`, and
`BackendFailure` models a propagated ChromaDB client error. -/
inductive VSError where
  | NotInitialized
  | BackendFailure
deriving DecidableEq

/-- The mutable fields of the `VectorStore` singleton that matter for
its initialization protocol: `isInit` models `isInitialized`,
`collection` models the nullable collection handle.  A fresh store is
`⟨false, none⟩` (the constructor leaves `collection = null`). -/
structure VectorStoreState where
  isInit : Bool
  collection : Option (List ChromaDoc)
deriving DecidableEq

/-- `VectorStore.initialize()`: returns at once when already
initialized; otherwise obtains the collection from the ChromaDB client
(`getCollection` falling back to `createCollection`, modelled as the
`backend` argument — `none` models both calls throwing) and only then
sets `isInitialized`. -/
def initializeStore (st : VectorStoreState) (backend : Option (List ChromaDoc)) :
    Except VSError VectorStoreState :=
  if st.isInit then .ok st
  else
    match backend with
    | some coll => .ok { isInit := true, collection := some coll }
    | none => .error .BackendFailure

/-- `VectorStore.addDocuments(documents)`: first
`if (!this.isInitialized) await this.initialize()` (a no-op when
already initialized, exactly `initializeStore`), then
`if (!this.collection) throw new Error("Collection not initialized")`,
then `collection.add(...)` (modelled as appending the documents). -/
def addDocuments (st : VectorStoreState) (backend : Option (List ChromaDoc))
    (documents : List ChromaDoc) : Except VSError VectorStoreState :=
  match initializeStore st backend with
  | .error e => .error e
  | .ok st' =>
    match st'.collection with
    | none => .error .NotInitialized
    | some coll => .ok { st' with collection := some (coll ++ documents) }

/-- `VectorStore.getCollectionCount()`: same auto-initialization and
guard as `addDocuments`, then `collection.count()`. -/
def getCollectionCount (st : VectorStoreState) (backend : Option (List ChromaDoc)) :
    Except VSError (VectorStoreState × Nat) :=
  match initializeStore st backend with
  | .error e => .error e
  | .ok st' =>
    match st'.collection with
    | none => .error .NotInitialized
    | some coll => .ok (st', coll.length)

/-- The state of a store on which `initialize` has never been called. -/
def freshStore : VectorStoreState :=
  { isInit := false, collection := none }

/-- C2 counterexample: calling `addDocuments` (or
`getCollectionCount`) on a never-initialized store with a working
backend does NOT fail with `NotInitialized`: both auto-initialize and
succeed. -/
theorem addDocuments_uninitialized_succeeds :
    addDocuments freshStore (some []) [⟨"a", "X", []⟩] ≠ .error .NotInitialized ∧
    addDocuments freshStore (some []) [⟨"a", "X", []⟩] =
      .ok { isInit := true, collection := some [⟨"a", "X", []⟩] } ∧
    getCollectionCount freshStore (some []) ≠ .error .NotInitialized ∧
    getCollectionCount freshStore (some []) =
      .ok ({ isInit := true, collection := some [] }, 0) := by
  refine ⟨?_, rfl, ?_, rfl⟩
  · intro h; cases h
  · intro h; cases h

/-- C2 (amended): `addDocuments` and `getCollectionCount` on a
never-initialized store first run `initialize` themselves: with a
working backend they succeed, and with a failing backend they
propagate the backend failure — in neither case do they fail with
`NotInitialized` (that error is reserved for the post-initialization
null-collection guard). -/
theorem addDocuments_count_auto_initialize
    (coll : List ChromaDoc) (documents : List ChromaDoc) :
    addDocuments freshStore (some coll) documents =
      .ok { isInit := true, collection := some (coll ++ documents) } ∧
    addDocuments freshStore none documents = .error .BackendFailure ∧
    getCollectionCount freshStore (some coll) =
      .ok ({ isInit := true, collection := some coll }, coll.length) ∧
    getCollectionCount freshStore none = .error .BackendFailure := by
  refine ⟨rfl, rfl, rfl, rfl⟩

/- ## VectorStore.similaritySearch: score mapping -/

/-- A mapped search result of `similaritySearch`
(src/lib/vectorStore.ts): `score = 1 - (distance || 0)`. -/
structure SimilarityResult where
  id : String
  content : String
  metadata : List (String × String)
  score : ℚ
deriving DecidableEq

/-- The slice of a ChromaDB `query` response used by
`similaritySearch` (the `[0]` slice of each field, since exactly one
query text is sent): `none` at the outer level models an absent
`distances`/`documents`/`metadatas` field (the failed `?.`/`&&`
chain); `none` at an index models a missing/undefined/null entry. -/
structure QueryResponse where
  ids : List String
  documents : Option (List (Option String))
  metadatas : Option (List (Option (List (String × String))))
  distances : Option (List (Option ℚ))

/-- JS `d || 0` on a possibly-missing number: `undefined`/`null`
become 0, a number stays itself (`0 || 0` is still 0). -/
def jsOrZero : Option ℚ → ℚ
  | none => 0
  | some d => d

/-- The `distance` local of the `similaritySearch` mapping:
`results.distances && results.distances[0] ? results.distances[0][index] : 1`
— the whole-array default is the number 1, a missing per-index entry
is `none` (later defaulted to 0 by `|| 0`). -/
def distanceAt (resp : QueryResponse) (index : Nat) : Option ℚ :=
  match resp.distances with
  | none => some 1
  | some ds => ds.getD index none

/-- `similaritySearch` result mapping (src/lib/vectorStore.ts lines
130-143): when ids are present, each id is mapped (in backend order —
no re-sorting happens) to a result with `score = 1 - (distance || 0)`;
otherwise the empty list is returned.  The embedding and the k-NN
query are external; the backend response is the input. -/
def similaritySearch (resp : QueryResponse) : List SimilarityResult :=
  if resp.ids.isEmpty then []
  else
    resp.ids.enum.map (fun p =>
      { id := p.2
        content := ((resp.documents.getD []).getD p.1 none).getD ""
        metadata := ((resp.metadatas.getD []).getD p.1 none).getD []
        score := 1 - jsOrZero (distanceAt resp p.1) })

theorem similaritySearch_scores_get? (resp : QueryResponse) (i : Nat)
    (hi : i < resp.ids.length) :
    ((similaritySearch resp).map (fun r => r.score)).get? i =
      some (1 - jsOrZero (distanceAt resp i)) := by
  have hne : resp.ids.isEmpty = false := by
    cases h : resp.ids with
    | nil => rw [h] at hi; exact absurd hi (by simp)
    | cons a t => rfl
  unfold similaritySearch
  rw [hne]
  simp only [Bool.false_eq_true, if_false, List.map_map, List.get?_map, List.get?_enum]
  obtain ⟨a, ha⟩ : ∃ a, resp.ids.get? i = some a := by
    cases h : resp.ids.get? i with
    | none => rw [List.get?_eq_none] at h; omega
    | some a => exact ⟨a, rfl⟩
  rw [ha]
  rfl

theorem similaritySearch_length (resp : QueryResponse)
    (hne : resp.ids.isEmpty = false) :
    (similaritySearch resp).length = resp.ids.length := by
  unfold similaritySearch
  rw [hne]
  simp [List.enum_length]

/-- C3 counterexample input: a backend response reporting one id and
no distances array at all. -/
def respNoDistances : QueryResponse :=
  { ids := ["a"], documents := none, metadatas := none, distances := none }

/-- C3 counterexample input: a backend response whose distances are
not in ascending order. -/
def respUnsorted : QueryResponse :=
  { ids := ["a", "b"], documents := none, metadatas := none,
    distances := some [some (9/10), some (1/10)] }

/-- C3 counterexample: (i) when the backend reports no distances array
at all, the result score is 0, not 1 (the code defaults the missing
array to distance 1, not 0); (ii) `similaritySearch` does not sort, so
a backend response with distances out of ascending order yields scores
that are not in descending order. -/
theorem similaritySearch_default_and_order_cex :
    ((similaritySearch respNoDistances).map (fun r => r.score) = [0] ∧ (0 : ℚ) ≠ 1) ∧
    ¬ ((similaritySearch respUnsorted).map (fun r => r.score)).Pairwise (· ≥ ·) := by
  have h1 : (similaritySearch respNoDistances).map (fun r => r.score) = [0] := by
    show [1 - jsOrZero (distanceAt respNoDistances 0)] = [0]
    norm_num [distanceAt, respNoDistances, jsOrZero]
  have h2 : (similaritySearch respUnsorted).map (fun r => r.score) =
      [1 - 9/10, 1 - 1/10] := by
    show [1 - jsOrZero (distanceAt respUnsorted 0),
          1 - jsOrZero (distanceAt respUnsorted 1)] = _
    norm_num [distanceAt, respUnsorted, jsOrZero]
  refine ⟨⟨h1, by norm_num⟩, fun hpair => ?_⟩
  rw [h2] at hpair
  have hrel := List.rel_of_pairwise_cons hpair (List.mem_cons_self _ _)
  norm_num at hrel

/-- C3 (amended): for every backend response, (a) a result whose
reported distance is `d` has score exactly `1 - d`; (b) a result whose
per-index distance entry is missing (while the distances array is
present) gets score 1 (distance defaulted to 0); (c) when the whole
distances array is absent, every score is 0 (distance defaulted to 1,
not 0); (d) results keep backend order, so scores are in descending
order whenever the backend reports all distances in ascending
order. -/
theorem similaritySearch_score_spec (resp : QueryResponse) :
    (∀ ds i d, resp.distances = some ds → i < resp.ids.length →
        ds.getD i none = some d →
        ((similaritySearch resp).map (fun r => r.score)).get? i = some (1 - d)) ∧
    (∀ ds i, resp.distances = some ds → i < resp.ids.length →
        ds.getD i none = none →
        ((similaritySearch resp).map (fun r => r.score)).get? i = some 1) ∧
    (resp.distances = none → ∀ r ∈ similaritySearch resp, r.score = 0) ∧
    (∀ ds : List ℚ, resp.distances = some (ds.map some) →
        ds.length = resp.ids.length → ds.Pairwise (· ≤ ·) →
        ((similaritySearch resp).map (fun r => r.score)).Pairwise (· ≥ ·)) := by
  refine ⟨?_, ?_, ?_, ?_⟩
  · intro ds i d hds hi hd
    rw [similaritySearch_scores_get? resp i hi]
    simp only [distanceAt, hds, hd, jsOrZero]
  · intro ds i hds hi hd
    rw [similaritySearch_scores_get? resp i hi]
    simp only [distanceAt, hds, hd, jsOrZero]
    norm_num
  · intro hds r hr
    unfold similaritySearch at hr
    by_cases hne : resp.ids.isEmpty
    · rw [if_pos hne] at hr; simp at hr
    · rw [if_neg hne] at hr
      obtain ⟨p, _, hp⟩ := List.mem_map.mp hr
      rw [← hp]
      show 1 - jsOrZero (distanceAt resp p.1) = 0
      simp only [distanceAt, hds, jsOrZero]
      norm_num
  · intro ds hds hlen hsorted
    by_cases hne : resp.ids.isEmpty
    · unfold similaritySearch
      rw [if_pos hne]
      simp
    · have hEq : (similaritySearch resp).map (fun r => r.score) =
          ds.map (fun d => 1 - d) := by
        apply List.ext_get?_iff.mpr
        intro i
        by_cases hi : i < resp.ids.length
        · rw [similaritySearch_scores_get? resp i hi, List.get?_map]
          have hid : i < ds.length := by omega
          obtain ⟨a, ha⟩ : ∃ a, ds.get? i = some a := by
            cases h : ds.get? i with
            | none => rw [List.get?_eq_none] at h; omega
            | some a => exact ⟨a, rfl⟩
          rw [ha]
          have hgd : (List.map some ds).getD i none = some a := by
            rw [List.getD_eq_getElem (List.map some ds) none (by simpa using hid),
              List.getElem_map]
            have hga : ds[i]? = some a := by
              rw [← List.get?_eq_getElem?]
              exact ha
            rw [List.getElem?_eq_getElem hid] at hga
            exact congrArg some (Option.some.inj hga)
          show some (1 - jsOrZero (distanceAt resp i)) = some (1 - a)
          simp only [distanceAt, hds, hgd, jsOrZero]
        · have h1 : ((similaritySearch resp).map (fun r => r.score)).get? i = none := by
            rw [List.get?_eq_none, List.length_map,
              similaritySearch_length resp (by simpa using hne)]
            omega
          have h2 : (ds.map (fun d => 1 - d)).get? i = none := by
            rw [List.get?_eq_none, List.length_map]
            omega
          rw [h1, h2]
      rw [hEq, List.pairwise_map]
      exact hsorted.imp (fun {a b} hab => by
        simpa using sub_le_sub_left hab 1)

/-- C3 witness input: distances present, entry 0 reported, entry 1
missing. -/
def respWitness : QueryResponse :=
  { ids := ["a", "b"], documents := none, metadatas := none,
    distances := some [some (1/4), none] }

/-- C3 witness input: all distances present, in ascending order. -/
def respWitnessSorted : QueryResponse :=
  { ids := ["a", "b"], documents := none, metadatas := none,
    distances := some [some (1/4), some (1/2)] }

/-- Witness for the amended C3 theorem at concrete backend
responses. -/
theorem similaritySearch_score_spec_witness :
    ((similaritySearch respWitness).map (fun r => r.score)).get? 0 = some (1 - 1/4) ∧
    ((similaritySearch respWitness).map (fun r => r.score)).get? 1 = some 1 ∧
    (∀ r ∈ similaritySearch respNoDistances, r.score = 0) ∧
    ((similaritySearch respWitnessSorted).map (fun r => r.score)).Pairwise (· ≥ ·) := by
  refine ⟨?_, ?_, ?_, ?_⟩
  · exact (similaritySearch_score_spec respWitness).1 [some (1/4), none] 0 (1/4)
      rfl (by decide) rfl
  · exact (similaritySearch_score_spec respWitness).2.1 [some (1/4), none] 1
      rfl (by decide) rfl
  · exact (similaritySearch_score_spec respNoDistances).2.2.1 rfl
  · exact (similaritySearch_score_spec respWitnessSorted).2.2.2 [1/4, 1/2]
      rfl rfl (by norm_num [List.pairwise_cons])

/- ## DocumentProcessor.chunkDocument -/

/-- JS `text.indexOf(ch, fromIndex)` on `List Char`: the first
position `≥ i` holding `ch`, if any (`-1` in JS is `none` here). -/
def indexOfFrom (text : List Char) (ch : Char) (i : Nat) : Option Nat :=
  ((List.range text.length).filter
    (fun j => decide (i ≤ j) && decide (text.getD j '\x00' = ch))).head?

/-- The sentence-terminator candidates of the break-point search of
`chunkDocument`: the next `.`, `?` and `!` positions at or after `e`
(the JS code filters out `-1` and sorts; only the minimum is used). -/
def breakCandidates (text : List Char) (e : Nat) : List Nat :=
  ([indexOfFrom text '.' e, indexOfFrom text '?' e,
    indexOfFrom text '!' e]).filterMap id

/-- The space fallback of the break-point search: snap to the next
space if it lies within 50 characters of `e`, else keep `e`. -/
def spaceSnap (text : List Char) (e : Nat) : Nat :=
  match indexOfFrom text ' ' e with
  | some sp => if sp - e < 50 then sp else e
  | none => e

/-- The break-point search of `chunkDocument` for one window: propose
`e = start + size`; while not at the end of the text, extend to just
past the nearest sentence terminator at or after `e` if one lies
within 100 characters, otherwise use the space fallback. -/
def findEnd (text : List Char) (size start : Nat) : Nat :=
  if start + size < text.length then
    match (breakCandidates text (start + size)).min? with
    | some b =>
      if b - (start + size) < 100 then b + 1
      else spaceSnap text (start + size)
    | none => spaceSnap text (start + size)
  else start + size

/-- The `while (startIndex < text.length)` loop of `chunkDocument`,
recorded as the list of `(startIndex, endIndex)` windows.  `fuel`
bounds the number of iterations; `none` means the budget ran out
(never happens with `fuel = text.length` when `overlap < size` — that
is the termination theorem). -/
def chunkSpansLoop (text : List Char) (size overlap : Nat) :
    Nat → Nat → Option (List (Nat × Nat))
  | start, 0 => if text.length ≤ start then some [] else none
  | start, fuel + 1 =>
    if text.length ≤ start then some []
    else
      (chunkSpansLoop text size overlap (findEnd text size start - overlap) fuel).map
        (fun rest => (start, findEnd text size start) :: rest)

/-- The windows traversed by the `chunkDocument` loop (for texts
longer than `size`). -/
def chunkSpans (text : List Char) (size overlap : Nat) : List (Nat × Nat) :=
  (chunkSpansLoop text size overlap 0 text.length).getD []

/-- `chunkDocument(text, chunkSize, overlap)` from
src/lib/documentProcessor.ts: a short text is returned whole (untrimmed);
a longer text yields `text.substring(start, end).trim()` for each
window of the loop (JS `substring` clamps `end` to the string
length, as `take` does). -/
def chunkDocument (text : List Char) (size overlap : Nat) : List (List Char) :=
  if text.length ≤ size then [text]
  else
    (chunkSpans text size overlap).map
      (fun se => jsTrimL ((text.drop se.1).take (se.2 - se.1)))

/-- The windows including the trivial one of the short-text case, used
to state coverage uniformly. -/
def chunkSpansFull (text : List Char) (size overlap : Nat) : List (Nat × Nat) :=
  if text.length ≤ size then [(0, text.length)] else chunkSpans text size overlap

/-- Concatenation of the window contents with each window cut at the
next window's start (the "ignoring the overlapping regions" reading of
chunk concatenation). -/
def stitch (text : List Char) : List (Nat × Nat) → List Char
  | [] => []
  | [se] => (text.drop se.1).take (se.2 - se.1)
  | se :: se2 :: rest => (text.drop se.1).take (se2.1 - se.1) ++ stitch text (se2 :: rest)

theorem indexOfFrom_ge {text : List Char} {ch : Char} {i j : Nat}
    (h : indexOfFrom text ch i = some j) : i ≤ j := by
  unfold indexOfFrom at h
  have hmem := List.mem_of_mem_head? (Option.mem_def.mpr h)
  have hf := List.mem_filter.mp hmem
  simp only [Bool.and_eq_true, decide_eq_true_eq] at hf
  exact hf.2.1

theorem mem_breakCandidates_ge {text : List Char} {e b : Nat}
    (h : b ∈ breakCandidates text e) : e ≤ b := by
  unfold breakCandidates at h
  simp only [List.mem_filterMap, id, List.mem_cons, List.mem_singleton,
    List.not_mem_nil, or_false] at h
  obtain ⟨o, ho, hob⟩ := h
  rcases ho with h' | h' | h' <;> (subst h'; exact indexOfFrom_ge hob)

theorem spaceSnap_ge (text : List Char) (e : Nat) : e ≤ spaceSnap text e := by
  unfold spaceSnap
  split
  next sp hsp =>
    have := indexOfFrom_ge hsp
    split <;> omega
  next => exact Nat.le_refl e

theorem spaceSnap_le (text : List Char) (e : Nat) : spaceSnap text e ≤ e + 50 := by
  unfold spaceSnap
  split
  next sp hsp =>
    have := indexOfFrom_ge hsp
    split <;> omega
  next => omega

theorem findEnd_ge (text : List Char) (size start : Nat) :
    start + size ≤ findEnd text size start := by
  unfold findEnd
  split
  · split
    next b hmin =>
      have hb : start + size ≤ b :=
        mem_breakCandidates_ge (List.min?_mem min_choice hmin)
      have hsnap := spaceSnap_ge text (start + size)
      split <;> omega
    next => exact spaceSnap_ge text (start + size)
  · exact Nat.le_refl _

theorem findEnd_le (text : List Char) (size start : Nat) :
    findEnd text size start ≤ start + size + 100 := by
  unfold findEnd
  split
  · split
    next b hmin =>
      have hb : start + size ≤ b :=
        mem_breakCandidates_ge (List.min?_mem min_choice hmin)
      have hsnap := spaceSnap_le text (start + size)
      split <;> omega
    next =>
      have := spaceSnap_le text (start + size)
      omega
  · omega

theorem chunkSpansLoop_isSome (text : List Char) (size overlap : Nat)
    (hov : overlap < size) :
    ∀ (fuel start : Nat), text.length ≤ start + fuel →
      (chunkSpansLoop text size overlap start fuel).isSome = true := by
  intro fuel
  induction fuel with
  | zero =>
    intro start h
    unfold chunkSpansLoop
    rw [if_pos (by omega)]
    rfl
  | succ fuel ih =>
    intro start h
    unfold chunkSpansLoop
    by_cases hs : text.length ≤ start
    · rw [if_pos hs]; rfl
    · rw [if_neg hs]
      have hin : (chunkSpansLoop text size overlap
          (findEnd text size start - overlap) fuel).isSome = true := by
        apply ih
        have hge := findEnd_ge text size start
        omega
      cases hx : chunkSpansLoop text size overlap (findEnd text size start - overlap) fuel with
      | none => rw [hx] at hin; exact absurd hin (by simp)
      | some spans => rfl

theorem chunkSpansLoop_cons_inv {text : List Char} {size overlap : Nat}
    {start fuel : Nat} {p : Nat × Nat} {rest : List (Nat × Nat)}
    (h : chunkSpansLoop text size overlap start fuel = some (p :: rest)) :
    ∃ fuel', fuel = fuel' + 1 ∧ start < text.length ∧
      p = (start, findEnd text size start) ∧
      chunkSpansLoop text size overlap (findEnd text size start - overlap) fuel' =
        some rest := by
  cases fuel with
  | zero =>
    unfold chunkSpansLoop at h
    by_cases hs : text.length ≤ start
    · rw [if_pos hs] at h; exact absurd h (by simp)
    · rw [if_neg hs] at h; exact absurd h (by simp)
  | succ fuel' =>
    unfold chunkSpansLoop at h
    by_cases hs : text.length ≤ start
    · rw [if_pos hs] at h; exact absurd h (by simp)
    · rw [if_neg hs] at h
      obtain ⟨rest', hr, hcons⟩ := Option.map_eq_some'.mp h
      obtain ⟨hp, hrest⟩ := List.cons.inj hcons
      exact ⟨fuel', rfl, by omega, hp.symm, by rw [hrest] at hr; exact hr⟩

theorem chunkSpansLoop_nil_inv {text : List Char} {size overlap : Nat}
    {start fuel : Nat}
    (h : chunkSpansLoop text size overlap start fuel = some []) :
    text.length ≤ start := by
  by_contra hs
  cases fuel with
  | zero =>
    unfold chunkSpansLoop at h
    rw [if_neg hs] at h
    exact absurd h (by simp)
  | succ fuel' =>
    unfold chunkSpansLoop at h
    rw [if_neg hs] at h
    obtain ⟨rest', _, hcons⟩ := Option.map_eq_some'.mp h
    exact absurd hcons (by simp)

theorem chunkSpansLoop_stitch (text : List Char) (size overlap : Nat)
    (hov : overlap < size) :
    ∀ (fuel start : Nat) (spans : List (Nat × Nat)), start < text.length →
      chunkSpansLoop text size overlap start fuel = some spans →
      stitch text spans = text.drop start := by
  intro fuel
  induction fuel with
  | zero =>
    intro start spans hs h
    unfold chunkSpansLoop at h
    rw [if_neg (by omega)] at h
    exact absurd h (by simp)
  | succ fuel ih =>
    intro start spans hs h
    cases spans with
    | nil => exact absurd (chunkSpansLoop_nil_inv h) (by omega)
    | cons p rest =>
      obtain ⟨fuel', hfe, hlt, hp, hrest⟩ := chunkSpansLoop_cons_inv h
      have hfuel : fuel' = fuel := by omega
      subst hfuel
      subst hp
      have hge : start + size ≤ findEnd text size start := findEnd_ge text size start
      cases rest with
      | nil =>
        have hend : text.length ≤ findEnd text size start - overlap :=
          chunkSpansLoop_nil_inv hrest
        show (text.drop start).take (findEnd text size start - start) = text.drop start
        apply List.take_of_length_le
        rw [List.length_drop]
        omega
      | cons p2 rest2 =>
        obtain ⟨fuel2, hfe2, hlt2, hp2, _⟩ := chunkSpansLoop_cons_inv hrest
        have hstitch := ih (findEnd text size start - overlap) (p2 :: rest2) hlt2 hrest
        show (text.drop start).take (p2.1 - start) ++ stitch text (p2 :: rest2) =
          text.drop start
        rw [hstitch, hp2]
        show (text.drop start).take ((findEnd text size start - overlap) - start) ++
          text.drop (findEnd text size start - overlap) = text.drop start
        have hdrop : text.drop (findEnd text size start - overlap) =
            (text.drop start).drop ((findEnd text size start - overlap) - start) := by
          rw [List.drop_drop]
          congr 1
          omega
        rw [hdrop, List.take_append_drop]

/-- C4: concatenating the window spans of `chunkDocument`, each cut at
the next window's start (i.e. ignoring the overlap regions),
reconstructs the input text losslessly; and `chunkDocument` returns at
least one chunk for every non-empty input. -/
theorem chunkDocument_coverage (text : List Char) (size overlap : Nat)
    (hov : overlap < size) :
    stitch text (chunkSpansFull text size overlap) = text ∧
    (text ≠ [] → chunkDocument text size overlap ≠ []) := by
  constructor
  · unfold chunkSpansFull
    by_cases hlen : text.length ≤ size
    · rw [if_pos hlen]
      show (text.drop 0).take (text.length - 0) = text
      rw [List.drop_zero, Nat.sub_zero]
      exact List.take_length text
    · rw [if_neg hlen]
      unfold chunkSpans
      have hsome : (chunkSpansLoop text size overlap 0 text.length).isSome = true :=
        chunkSpansLoop_isSome text size overlap hov text.length 0 (by omega)
      obtain ⟨spans, hspans⟩ := Option.isSome_iff_exists.mp hsome
      rw [hspans]
      show stitch text spans = text
      have h0 : 0 < text.length := by omega
      have hst := chunkSpansLoop_stitch text size overlap hov text.length 0 spans h0 hspans
      rw [hst, List.drop_zero]
  · intro hne
    unfold chunkDocument
    by_cases hlen : text.length ≤ size
    · rw [if_pos hlen]; simp
    · rw [if_neg hlen]
      unfold chunkSpans
      have hsome := chunkSpansLoop_isSome text size overlap hov text.length 0 (by omega)
      obtain ⟨spans, hspans⟩ := Option.isSome_iff_exists.mp hsome
      rw [hspans]
      cases spans with
      | nil => exact absurd (chunkSpansLoop_nil_inv hspans) (by omega)
      | cons p rest => simp

/-- C4 witness: a concrete two-character text with window size 1 and
overlap 0. -/
theorem chunkDocument_coverage_witness :
    stitch ("ab").data (chunkSpansFull ("ab").data 1 0) = ("ab").data ∧
    chunkDocument ("ab").data 1 0 ≠ [] := by
  have h := chunkDocument_coverage ("ab").data 1 0 (by decide)
  exact ⟨h.1, h.2 (by decide)⟩

theorem jsTrimL_length_le (l : List Char) : (jsTrimL l).length ≤ l.length := by
  unfold jsTrimL
  rw [List.length_reverse]
  calc ((l.dropWhile isWS).reverse.dropWhile isWS).length
      ≤ (l.dropWhile isWS).reverse.length := (List.dropWhile_suffix isWS).length_le
    _ = (l.dropWhile isWS).length := List.length_reverse _
    _ ≤ l.length := (List.dropWhile_suffix isWS).length_le

theorem chunkSpansLoop_mem_snd (text : List Char) (size overlap : Nat) :
    ∀ (fuel start : Nat) (spans : List (Nat × Nat)),
      chunkSpansLoop text size overlap start fuel = some spans →
      ∀ p ∈ spans, p.2 = findEnd text size p.1 := by
  intro fuel
  induction fuel with
  | zero =>
    intro start spans h p hp
    unfold chunkSpansLoop at h
    by_cases hs : text.length ≤ start
    · rw [if_pos hs] at h
      have hnil : ([] : List (Nat × Nat)) = spans := by
        simpa using h
      rw [← hnil] at hp
      simp at hp
    · rw [if_neg hs] at h; exact absurd h (by simp)
  | succ fuel ih =>
    intro start spans h p hp
    cases spans with
    | nil => simp at hp
    | cons q rest =>
      obtain ⟨fuel', hfe, hlt, hq, hrest⟩ := chunkSpansLoop_cons_inv h
      have hfuel : fuel' = fuel := by omega
      subst hfuel
      rcases List.mem_cons.mp hp with h' | h'
      · rw [h', hq]
      · exact ih _ rest hrest p h'

/-- C6: for a text longer than `size`, every emitted chunk except
possibly the last (in fact, every chunk) has length at most
`size + 100` characters, the width of the sentence-terminator search
window. -/
theorem chunkDocument_size_bound (text : List Char) (size overlap : Nat)
    (hov : overlap < size) (hbig : size < text.length) :
    ∀ i, i + 1 < (chunkDocument text size overlap).length →
      ((chunkDocument text size overlap).getD i []).length ≤ size + 100 := by
  intro i hi
  have hne : ¬ text.length ≤ size := by omega
  unfold chunkDocument at hi ⊢
  rw [if_neg hne] at hi ⊢
  have hsome := chunkSpansLoop_isSome text size overlap hov text.length 0 (by omega)
  obtain ⟨spans, hspans⟩ := Option.isSome_iff_exists.mp hsome
  have hcs : chunkSpans text size overlap = spans := by
    unfold chunkSpans
    rw [hspans]
    rfl
  rw [hcs] at hi ⊢
  have hlen2 : i < spans.length := by
    rw [List.length_map] at hi
    omega
  have hilt : i <
      (spans.map (fun se => jsTrimL ((text.drop se.1).take (se.2 - se.1)))).length := by
    rw [List.length_map]
    omega
  rw [List.getD_eq_getElem _ [] hilt, List.getElem_map]
  have hmem : spans[i] ∈ spans := List.getElem_mem hlen2
  have hsnd := chunkSpansLoop_mem_snd text size overlap text.length 0 spans hspans
    (spans[i]) hmem
  have hle := findEnd_le text size (spans[i]).1
  calc (jsTrimL ((text.drop (spans[i]).1).take ((spans[i]).2 - (spans[i]).1))).length
      ≤ ((text.drop (spans[i]).1).take ((spans[i]).2 - (spans[i]).1)).length :=
        jsTrimL_length_le _
    _ ≤ (spans[i]).2 - (spans[i]).1 := by
        rw [List.length_take]
        exact Nat.min_le_left _ _
    _ ≤ size + 100 := by omega

/-- C6 witness: a concrete 8-character text with size 5 and
overlap 2; the first (non-final) chunk obeys the bound. -/
theorem chunkDocument_size_bound_witness :
    (2 < 5 ∧ 5 < ("abcdefgh").data.length ∧
      0 + 1 < (chunkDocument ("abcdefgh").data 5 2).length) ∧
    ((chunkDocument ("abcdefgh").data 5 2).getD 0 []).length ≤ 5 + 100 := by
  refine ⟨⟨by decide, by decide, by decide⟩, ?_⟩
  exact chunkDocument_size_bound ("abcdefgh").data 5 2 (by decide) (by decide) 0 (by decide)

/-- C7: whenever `overlap < size`, each loop iteration advances the
window start by a strictly positive amount (`findEnd` exceeds
`start + overlap`), and consequently the loop finishes within
`text.length` iterations: the fuelled loop never exhausts its
budget. -/
theorem chunkDocument_terminates (text : List Char) (size overlap : Nat)
    (hov : overlap < size) :
    (∀ start, start + overlap < findEnd text size start) ∧
    (chunkSpansLoop text size overlap 0 text.length).isSome = true := by
  constructor
  · intro start
    have := findEnd_ge text size start
    omega
  · exact chunkSpansLoop_isSome text size overlap hov text.length 0 (by omega)

/-- C7 witness: concrete text, size, overlap. -/
theorem chunkDocument_terminates_witness :
    0 + 0 < findEnd ("ab").data 1 0 ∧
    (chunkSpansLoop ("ab").data 1 0 0 ("ab").data.length).isSome = true := by
  have h := chunkDocument_terminates ("ab").data 1 0 (by decide)
  exact ⟨h.1 0, h.2⟩

/- ## RfpAnalyzer: submission requirements (`extractFormatRequirements`,
`extractDocumentRequirements`, `extractDeadlines`,
`generateSubmissionChecklist`, `extractSubmissionRequirements`) -/

/-- Gate terms of `extractFormatRequirements`
(`/page limit|font size|margin|spacing|format|template/i`). -/
def formatGateTerms : List String :=
  ["page limit", "font size", "margin", "spacing", "format", "template"]

/-- Per-line terms of `extractFormatRequirements`
(`/page|font|margin|spacing|format|template|size|header|footer/i`). -/
def formatLineTerms : List String :=
  ["page", "font", "margin", "spacing", "format", "template", "size",
   "header", "footer"]

/-- `extractFormatRequirements(text)` from src/lib/rfpAnalyzer.ts. -/
def extractFormatRequirements (text : String) : List String :=
  if containsAnyCI text formatGateTerms then
    (splitLines text).filterMap (fun line =>
      if containsAnyCI line formatLineTerms then some (jsTrim line) else none)
  else []

/-- Terms of `extractDocumentRequirements` (used both as gate and per
line: `/submit|include|attach|provide|form|document|certificate/i`). -/
def documentTerms : List String :=
  ["submit", "include", "attach", "provide", "form", "document", "certificate"]

/-- `extractDocumentRequirements(text)` from src/lib/rfpAnalyzer.ts. -/
def extractDocumentRequirements (text : String) : List String :=
  if containsAnyCI text documentTerms then
    (splitLines text).filterMap (fun line =>
      if containsAnyCI line documentTerms then some (jsTrim line) else none)
  else []

/-- Date-ish keywords of `extractDeadlines`
(`/due|deadline|by|before|date|schedule/i`). -/
def deadlineTerms : List String :=
  ["due", "deadline", "by", "before", "date", "schedule"]

/-- `k` digit characters starting at position `i`. -/
def digitsAt (l : List Char) (i k : Nat) : Bool :=
  decide (i + k ≤ l.length) && ((l.drop i).take k).all Char.isDigit

/-- The character at position `i` is exactly `c`. -/
def charAt (l : List Char) (i : Nat) (c : Char) : Bool :=
  match l.drop i with
  | d :: _ => d = c
  | [] => false

/-- A match of the regex `\d{1,2}\/\d{1,2}\/\d{2,4}` starting at
position `i`: the quantifiers only ever need the listed widths, since
a digit can never satisfy the following `\/` and backtracking past a
slash is impossible. -/
def dateSlashAt (l : List Char) (i : Nat) : Bool :=
  [1, 2].any (fun a => [1, 2].any (fun b => [2, 3, 4].any (fun c =>
    digitsAt l i a && charAt l (i + a) '/' && digitsAt l (i + a + 1) b &&
      charAt l (i + a + 1 + b) '/' && digitsAt l (i + a + 1 + b + 1) c)))

/-- `line.match(/\d{1,2}\/\d{1,2}\/\d{2,4}/)` as existence of a match
at some position. -/
def hasDateSlash (line : String) : Bool :=
  (List.range line.data.length).any (fun i => dateSlashAt line.data i)

/-- The month-name alternatives of `extractDeadlines`. -/
def monthNames : List String :=
  ["January", "February", "March", "April", "May", "June", "July",
   "August", "September", "October", "November", "December"]

/-- JS regex word character (`\w` = `[A-Za-z0-9_]`), as used by the
word-boundary `\b`. -/
def isWordChar (c : Char) : Bool :=
  c.isAlphanum || c = '_'

/-- Is the character at position `i` a word character?  Out-of-range
positions count as non-word (so `\b` holds at the string edges). -/
def wordCharAt (l : List Char) (i : Nat) : Bool :=
  match (l.drop i).head? with
  | some d => isWordChar d
  | none => false

/-- A case-insensitive match of month name `m` at position `i` with
word boundaries on both sides, modelling `\b(January|…)\b` with the
`i` flag. -/
def monthAt (l : List Char) (m : List Char) (i : Nat) : Bool :=
  isPrefixB (toLowerL m) (toLowerL (l.drop i)) &&
    (decide (i = 0) || !(wordCharAt l (i - 1))) &&
    !(wordCharAt l (i + m.length))

/-- `line.match(/\b(January|February|…)\b/i)` as existence of a
match. -/
def hasMonthName (line : String) : Bool :=
  monthNames.any (fun m =>
    (List.range line.data.length).any (fun i => monthAt line.data m.data i))

/-- `extractDeadlines(text)` from src/lib/rfpAnalyzer.ts: lines with a
date-ish keyword AND either a `d/m/y`-style numeric date or a month
name. -/
def extractDeadlines (text : String) : List String :=
  if containsAnyCI text deadlineTerms then
    (splitLines text).filterMap (fun line =>
      if containsAnyCI line deadlineTerms &&
          (hasDateSlash line || hasMonthName line) then
        some (jsTrim line)
      else none)
  else []

/-- One checklist section body: the items as `- [ ] item` lines, or
the given fallback line when the bucket is empty. -/
def checklistItems (items : List String) (fallback : String) : String :=
  if items.isEmpty then fallback
  else String.join (items.map (fun it => "- [ ] " ++ it ++ "\n"))

/-- The fixed trailing "Final Verification" boilerplate of
`generateSubmissionChecklist`. -/
def finalVerificationItems : String :=
  "\n## Final Verification\n\n- [ ] All forms completely filled out\n- [ ] All required signatures included\n- [ ] Correct number of copies prepared\n- [ ] Proposal properly sealed and marked\n- [ ] Delivery method arranged for on-time submission\n"

/-- `generateSubmissionChecklist(formatReqs, docReqs, deadlines)` from
src/lib/rfpAnalyzer.ts. -/
def generateSubmissionChecklist (formatReqs docReqs deadlines : List String) : String :=
  "# RFP Submission Checklist\n\n## Important Deadlines\n\n" ++
    checklistItems deadlines
      ("- [ ] No specific deadlines found - verify due date in the RFP\n") ++
    "\n## Format Requirements\n\n" ++
    checklistItems formatReqs
      ("- [ ] No specific format requirements found - check the RFP for details\n") ++
    "\n## Required Documents\n\n" ++
    checklistItems docReqs
      ("- [ ] No specific document requirements found - check the RFP for details\n") ++
    finalVerificationItems

/-- `[...new Set(arr)]`: keep the first occurrence of each element, in
order. -/
def jsSetDedupAux (seen : List String) : List String → List String
  | [] => []
  | x :: rest =>
    if seen.contains x then jsSetDedupAux seen rest
    else x :: jsSetDedupAux (x :: seen) rest

/-- `[...new Set(arr)]` on a string array. -/
def jsSetDedup (l : List String) : List String :=
  jsSetDedupAux [] l

/-- The return value of `extractSubmissionRequirements`. -/
structure SubmissionRequirements where
  formatRequirements : List String
  documentRequirements : List String
  deadlines : List String
  submissionChecklist : String
deriving DecidableEq

/-- `extractSubmissionRequirements(rfpId)` from src/lib/rfpAnalyzer.ts
with the retrieval results (chunk contents) supplied as input: the
three buckets are collected across all chunks, the checklist is
generated FROM THE RAW (un-deduplicated) buckets, and only the
returned arrays are deduplicated (`[...new Set(...)]` happens in the
return statement, after `generateSubmissionChecklist` was called). -/
def extractSubmissionRequirements (contents : List String) : SubmissionRequirements :=
  { formatRequirements := jsSetDedup (contents.flatMap extractFormatRequirements)
    documentRequirements := jsSetDedup (contents.flatMap extractDocumentRequirements)
    deadlines := jsSetDedup (contents.flatMap extractDeadlines)
    submissionChecklist := generateSubmissionChecklist
      (contents.flatMap extractFormatRequirements)
      (contents.flatMap extractDocumentRequirements)
      (contents.flatMap extractDeadlines) }

set_option maxRecDepth 8000 in
/-- C5 counterexample: two retrieved chunks each contributing the same
document-requirement line.  The returned bucket is deduplicated, but
the rendered checklist is NOT the checklist of the deduplicated
buckets: it lists the duplicate twice, so deduplication does not
happen before rendering. -/
theorem submissionChecklist_not_deduplicated :
    (extractSubmissionRequirements ["Submit form A", "Submit form A"]).documentRequirements
      = ["Submit form A"] ∧
    (extractSubmissionRequirements ["Submit form A", "Submit form A"]).submissionChecklist
      ≠ generateSubmissionChecklist
        (jsSetDedup (["Submit form A", "Submit form A"].flatMap extractFormatRequirements))
        (jsSetDedup (["Submit form A", "Submit form A"].flatMap extractDocumentRequirements))
        (jsSetDedup (["Submit form A", "Submit form A"].flatMap extractDeadlines)) := by
  refine ⟨by decide, by decide⟩

theorem generateSubmissionChecklist_final (formatReqs docReqs deadlines : List String) :
    ∃ p : String, (generateSubmissionChecklist formatReqs docReqs deadlines).data =
      p.data ++ finalVerificationItems.data := by
  refine ⟨"# RFP Submission Checklist\n\n## Important Deadlines\n\n" ++
    checklistItems deadlines
      ("- [ ] No specific deadlines found - verify due date in the RFP\n") ++
    "\n## Format Requirements\n\n" ++
    checklistItems formatReqs
      ("- [ ] No specific format requirements found - check the RFP for details\n") ++
    "\n## Required Documents\n\n" ++
    checklistItems docReqs
      ("- [ ] No specific document requirements found - check the RFP for details\n"), ?_⟩
  simp only [generateSubmissionChecklist, String.data_append, List.append_assoc]

/-- C5 (amended): the three buckets returned by
`extractSubmissionRequirements` are deduplicated with set semantics,
but the markdown checklist is rendered from the buckets BEFORE
deduplication; the checklist always ends with the fixed Final
Verification boilerplate items. -/
theorem extractSubmissionRequirements_spec (contents : List String) :
    (extractSubmissionRequirements contents).formatRequirements =
      jsSetDedup (contents.flatMap extractFormatRequirements) ∧
    (extractSubmissionRequirements contents).documentRequirements =
      jsSetDedup (contents.flatMap extractDocumentRequirements) ∧
    (extractSubmissionRequirements contents).deadlines =
      jsSetDedup (contents.flatMap extractDeadlines) ∧
    (extractSubmissionRequirements contents).submissionChecklist =
      generateSubmissionChecklist (contents.flatMap extractFormatRequirements)
        (contents.flatMap extractDocumentRequirements)
        (contents.flatMap extractDeadlines) ∧
    (∃ p : String, (extractSubmissionRequirements contents).submissionChecklist.data =
      p.data ++ finalVerificationItems.data) := by
  refine ⟨rfl, rfl, rfl, rfl, ?_⟩
  exact generateSubmissionChecklist_final _ _ _
